import Mathlib

/-
  Shallow embedding of pevents.cpp (WIN32 Events for POSIX, NeoSmart) with the
  WFMO feature enabled. Mutex-protected critical sections are modelled as
  atomic steps; the effect of other threads during the unlocked window of a
  condition wait is supplied by an explicit oracle list. Wait records, which
  the C++ shares by pointer, are addressed by Nat ids in an association-list
  heap. Each operation also returns the list of primitive lock / unlock /
  destroy / free / signal / wait actions it performed, in program order.
-/

set_option linter.unusedVariables false

namespace PEvents

/-- Linux errno code returned by a timed wait that elapses. -/
def ETIMEDOUT : Nat := 110

/-- The all-ones 64 bit value, the sentinel for an infinite timeout. -/
def UINT64MAX : Nat := 2 ^ 64 - 1

/-- Modulus of uint64 arithmetic. -/
def U64 : Nat := 2 ^ 64

/-- One entry of an event RegisteredWaits deque: neosmart_wfmo_info_t_.
The Waiter pointer is modelled as a Nat heap id. -/
structure WaitInfo where
  Waiter : Nat
  WaitIndex : Int
deriving DecidableEq, Repr

/-- neosmart_event_t_ (mutex and condition variable left implicit). -/
structure Event where
  AutoReset : Bool
  State : Bool
  RegisteredWaits : List WaitInfo
deriving DecidableEq, Repr

/-- neosmart_wfmo_t_. Status is the C union of FiredEvent and EventsLeft:
both members alias the same int, so it is a single Int field here. -/
structure Wfmo where
  Status : Int
  StillWaiting : Bool
  RefCount : Int
  WaitAll : Bool
deriving DecidableEq, Repr

/-- The heap of live wait records, keyed by id. -/
abbrev Heap := List (Nat × Wfmo)

/-- Dereference a wait-record pointer. -/
def findRecord : Heap → Nat → Option Wfmo
  | [], _ => none
  | (k, w) :: rest, i => if k = i then some w else findRecord rest i

/-- Store through a wait-record pointer (replaces the first binding). -/
def setRecord : Heap → Nat → Wfmo → Heap
  | [], i, w => [(i, w)]
  | (k, v) :: rest, i, w =>
      if k = i then (i, w) :: rest else (k, v) :: setRecord rest i w

/-- Free a wait record (delete). -/
def eraseRecord : Heap → Nat → Heap
  | [], _ => []
  | (k, v) :: rest, i => if k = i then rest else (k, v) :: eraseRecord rest i

/-- Primitive actions, recorded in program order. Record actions carry the
record id; event actions carry the index of the event in the call. -/
inductive Action where
  | lockRec : Nat → Action
  | unlockRec : Nat → Action
  | destroyRec : Nat → Action
  | freeRec : Nat → Action
  | condSignalRec : Nat → Action
  | condWaitRec : Action
  | lockEv : Nat → Action
  | unlockEv : Nat → Action
  | condSignalEv : Action
  | condBroadcastEv : Action
deriving DecidableEq, Repr

/-- Result of the single-event wait path (UnlockedWaitForEvent). consumed is
true exactly when the call performed the State true-to-false transition;
blocked is true exactly when the call entered a condition wait. -/
structure UWResult where
  result : Nat
  event : Event
  consumed : Bool
  blocked : Bool
deriving DecidableEq, Repr

/-- The do/while condition-wait loop of UnlockedWaitForEvent. Each oracle
entry is the pair (return code of the cond wait, event State as republished
by other threads during the unlocked window). none means the oracle was
exhausted while the thread was still blocked. -/
def waitLoop (e : Event) : List (Nat × Bool) → Option UWResult
  | [] => none
  | (rc, st) :: rest =>
      let e1 : Event := { e with State := st }
      if rc = 0 ∧ st = false then waitLoop e1 rest
      else if rc = 0 ∧ e1.AutoReset then
        some ⟨0, { e1 with State := false }, true, true⟩
      else some ⟨rc, e1, false, true⟩

/-- UnlockedWaitForEvent(event, milliseconds), pevents.cpp lines 90-144.
The deadline computation for a finite timeout is pure arithmetic on the
clock sample and is modelled separately by deadlineNanos / deadlineTs; the
outcome of each timed or untimed cond wait is supplied by the oracle. -/
def UnlockedWaitForEvent (e : Event) (ms : Nat) (oracle : List (Nat × Bool)) :
    Option UWResult :=
  if e.State = false then
    if ms = 0 then some ⟨ETIMEDOUT, e, false, false⟩
    else waitLoop e oracle
  else if e.AutoReset then some ⟨0, { e with State := false }, true, false⟩
  else some ⟨0, e, false, false⟩

/-- WaitForEvent: lock the event mutex, run the unlocked wait, unlock.
Both mutex calls succeed in the model, so the result is that of the
unlocked wait. -/
def WaitForEvent (e : Event) (ms : Nat) (oracle : List (Nat × Bool)) :
    Option UWResult :=
  UnlockedWaitForEvent e ms oracle

/-- ResetEvent: lock, State := false, unlock; returns 0. -/
def ResetEvent (e : Event) : Event × Nat :=
  ({ e with State := false }, 0)

/-- The uint64 nanosecond total of lines 107 and 301:
tv_sec * 1e9 + milliseconds * 1e6 + tv_usec * 1e3, in uint64 arithmetic. -/
def deadlineNanos (tvSec tvUsec ms : Nat) : Nat :=
  (tvSec * 1000 * 1000 * 1000 + ms * 1000 * 1000 + tvUsec * 1000) % U64

/-- The timespec built from the nanosecond total, lines 109-110 and 303-304:
tv_sec = nanoseconds / 1e9, tv_nsec = nanoseconds - tv_sec * 1e9. -/
def deadlineTs (tvSec tvUsec ms : Nat) : Nat × Nat :=
  let n := deadlineNanos tvSec tvUsec ms
  let sec := n / 1000 / 1000 / 1000
  (sec, n - sec * 1000 * 1000 * 1000)

/-- The update a signaler applies to a live registered waiter: lines 413-425
and 490-502. RefCount has already been decremented on entry to the visit. -/
def liveUpdate (w : Wfmo) (info : WaitInfo) : Wfmo :=
  if w.WaitAll then { w with Status := w.Status - 1 }
  else { w with Status := info.WaitIndex, StillWaiting := false }

/-- Outcome of one visit of a signaler to one registration. -/
inductive VisitOutcome where
  | stale : Bool → VisitOutcome
  | live : VisitOutcome
  | dangling : VisitOutcome
deriving DecidableEq, Repr

structure VisitResult where
  heap : Heap
  outcome : VisitOutcome
  trace : List Action
deriving DecidableEq, Repr

/-- The per-registration body shared by the two SetEvent loops (lines
393-409 / 457-488 up to the liveness split, then the live update): lock the
record mutex, decrement RefCount; a departed record is freed if the count
hit zero, otherwise unlocked; a live record gets the multi-wait update,
unlock, cond signal. dangling covers a heap miss, unreachable while every
registered id is live. -/
def visitRegistration (h : Heap) (info : WaitInfo) : VisitResult :=
  match findRecord h info.Waiter with
  | none => ⟨h, .dangling, []⟩
  | some w =>
      let w1 : Wfmo := { w with RefCount := w.RefCount - 1 }
      if w1.StillWaiting = false then
        if w1.RefCount = 0 then
          ⟨eraseRecord h info.Waiter, .stale true,
            [.lockRec info.Waiter, .destroyRec info.Waiter, .freeRec info.Waiter]⟩
        else
          ⟨setRecord h info.Waiter w1, .stale false,
            [.lockRec info.Waiter, .unlockRec info.Waiter]⟩
      else
        ⟨setRecord h info.Waiter (liveUpdate w1 info), .live,
          [.lockRec info.Waiter, .unlockRec info.Waiter, .condSignalRec info.Waiter]⟩

structure AutoLoopResult where
  heap : Heap
  waits : List WaitInfo
  fired : Option Nat
  trace : List Action
deriving DecidableEq, Repr

/-- The auto-reset while loop of SetEvent, lines 391-433: walk
RegisteredWaits from the front; pop and skip departed waiters; on the first
live waiter update it, pop it, and stop (fired = its id); the State := false
of line 411 and the event unlock are applied by SetEvent itself. -/
def setEventAutoLoop (h : Heap) : List WaitInfo → AutoLoopResult
  | [] => ⟨h, [], none, []⟩
  | info :: rest =>
      let v := visitRegistration h info
      match v.outcome with
      | .live => ⟨v.heap, rest, some info.Waiter, v.trace⟩
      | _ =>
          let r := setEventAutoLoop v.heap rest
          ⟨r.heap, r.waits, r.fired, v.trace ++ r.trace⟩

/-- The manual-reset for loop of SetEvent, lines 455-506: visit every
registration in order; entries are not popped (the deque is cleared
afterwards). -/
def setEventManualLoop (h : Heap) : List WaitInfo → Heap × List Action
  | [] => (h, [])
  | info :: rest =>
      let v := visitRegistration h info
      let r := setEventManualLoop v.heap rest
      (r.1, v.trace ++ r.2)

structure SetResult where
  event : Event
  heap : Heap
  result : Nat
  trace : List Action
deriving DecidableEq, Repr

/-- SetEvent(event), lines 377-522. State := true under the event mutex,
then the auto-reset single-delivery walk or the manual-reset broadcast
walk. In the auto branch, if the walk found a live registered waiter the
event leaves with State = false and only that waiter signaled; otherwise
State is still true (the walk never cleared it) and one cond_signal wakes a
single-waiter. -/
def SetEvent (e : Event) (h : Heap) : SetResult :=
  let e1 : Event := { e with State := true }
  if e1.AutoReset then
    let r := setEventAutoLoop h e1.RegisteredWaits
    match r.fired with
    | some _ =>
        { event := { e1 with State := false, RegisteredWaits := r.waits },
          heap := r.heap, result := 0,
          trace := Action.lockEv 0 :: (r.trace ++ [Action.unlockEv 0]) }
    | none =>
        { event := { e1 with RegisteredWaits := r.waits },
          heap := r.heap, result := 0,
          trace := Action.lockEv 0 :: (r.trace ++ [Action.unlockEv 0, Action.condSignalEv]) }
  else
    let r := setEventManualLoop h e1.RegisteredWaits
    { event := { e1 with RegisteredWaits := [] },
      heap := r.1, result := 0,
      trace := Action.lockEv 0 :: (r.2 ++ [Action.unlockEv 0, Action.condBroadcastEv]) }

/-- CreateEvent(manualReset, initialState), lines 59-88: a fresh event with
State = false and AutoReset = not manualReset, after which the source calls
SetEvent(event) unconditionally (line 78); initialState is consulted only
by the PTHREADCHK error check. -/
def CreateEvent (manualReset : Bool) (initialState : Bool) : Event :=
  let event : Event := { AutoReset := !manualReset, State := false, RegisteredWaits := [] }
  (SetEvent event []).event

/-- The wait record as built at multi-wait entry, lines 201-216. -/
def wfmoInitRecord (count : Nat) (waitAll : Bool) : Wfmo :=
  { Status := if waitAll then (count : Int) else -1,
    StillWaiting := true, RefCount := 1, WaitAll := waitAll }

/-- One wakeup of the multi-wait cond loop: the return code of the cond
wait, and the Status and RefCount of the record as left by the signalers
that ran during the unlocked window. -/
structure WfmoStep where
  rc : Nat
  status : Int
  refCount : Int
deriving DecidableEq, Repr

structure RegLoopResult where
  events : List Event
  record : Wfmo
  fired : Option Int
  trace : List Action
deriving DecidableEq, Repr

/-- The registration pass of WaitForMultipleEvents, lines 231-286: for each
event, under its mutex, try a zero-timeout unlocked wait; on success either
decrement EventsLeft (waitAll) or record the fired index and stop; on
failure append a registration and increment RefCount. The getD default can
never be taken: a zero-timeout wait always returns. -/
def registerLoop (rid : Nat) (waitAll : Bool) :
    List Event → Nat → Wfmo → RegLoopResult
  | [], _, w => ⟨[], w, none, []⟩
  | e :: rest, i, w =>
      let r := (UnlockedWaitForEvent e 0 []).getD ⟨ETIMEDOUT, e, false, false⟩
      if r.result = 0 then
        if waitAll then
          let res := registerLoop rid waitAll rest (i + 1) { w with Status := w.Status - 1 }
          ⟨r.event :: res.events, res.record, res.fired,
            Action.lockEv i :: Action.unlockEv i :: res.trace⟩
        else
          ⟨r.event :: rest, { w with Status := (i : Int) }, some (i : Int),
            [Action.lockEv i, Action.unlockEv i]⟩
      else
        let e1 : Event :=
          { r.event with RegisteredWaits := r.event.RegisteredWaits ++ [⟨rid, (i : Int)⟩] }
        let res := registerLoop rid waitAll rest (i + 1) { w with RefCount := w.RefCount + 1 }
        ⟨e1 :: res.events, res.record, res.fired,
          Action.lockEv i :: Action.unlockEv i :: res.trace⟩

/-- The done predicate of line 314. -/
def wfmoDone (waitAll : Bool) (w : Wfmo) : Bool :=
  (waitAll && w.Status == 0) || (!waitAll && !(w.Status == -1))

/-- The while loop of lines 308-330: recheck done, then cond wait (one
oracle step per wait), breaking on a non-zero wait result. none means the
oracle was exhausted while still blocked. -/
def wfmoWaitLoop (waitAll : Bool) : Wfmo → List WfmoStep → Option (Wfmo × Nat × List Action)
  | w, [] => if wfmoDone waitAll w then some (w, 0, []) else none
  | w, s :: rest =>
      if wfmoDone waitAll w then some (w, 0, [])
      else
        let w1 : Wfmo := { w with Status := s.status, RefCount := s.refCount }
        if s.rc ≠ 0 then some (w1, s.rc, [Action.condWaitRec])
        else
          match wfmoWaitLoop waitAll w1 rest with
          | none => none
          | some (w2, rc, tr) => some (w2, rc, Action.condWaitRec :: tr)

/-- The finalize step of lines 332-352: waitIndex := Status.FiredEvent (a
union read: under waitAll this aliases EventsLeft), StillWaiting := false,
drop the waiter reference, and destroy and free the record if the count hit
zero, else unlock it (publishing it into the heap). -/
def wfmoFinalize (rid : Nat) (w : Wfmo) (h : Heap) : Heap × Int × List Action :=
  let waitIndex := w.Status
  let w1 : Wfmo := { w with StillWaiting := false, RefCount := w.RefCount - 1 }
  if w1.RefCount = 0 then (h, waitIndex, [Action.destroyRec rid, Action.freeRec rid])
  else (setRecord h rid w1, waitIndex, [Action.unlockRec rid])

structure WFMOResult where
  events : List Event
  heap : Heap
  result : Nat
  waitIndex : Int
  trace : List Action
deriving DecidableEq, Repr

/-- WaitForMultipleEvents(events, count, waitAll, milliseconds, waitIndex),
lines 178-355: build the record (rid is the fresh address), lock its mutex,
run the registration pass, then either the zero-timeout early out, or the
cond wait loop driven by the oracle, then finalize. none means the call is
still blocked when the oracle runs out. -/
def WaitForMultipleEvents (events : List Event) (waitAll : Bool) (ms : Nat)
    (rid : Nat) (h : Heap) (oracle : List WfmoStep) : Option WFMOResult :=
  let w0 := wfmoInitRecord events.length waitAll
  let reg := registerLoop rid waitAll events 0 w0
  match reg.fired with
  | some _ =>
      let f := wfmoFinalize rid reg.record h
      some ⟨reg.events, f.1, 0, f.2.1, Action.lockRec rid :: (reg.trace ++ f.2.2)⟩
  | none =>
      if ms = 0 then
        let f := wfmoFinalize rid reg.record h
        some ⟨reg.events, f.1, ETIMEDOUT, f.2.1, Action.lockRec rid :: (reg.trace ++ f.2.2)⟩
      else
        match wfmoWaitLoop waitAll reg.record oracle with
        | none => none
        | some (w1, rc, trC) =>
            let f := wfmoFinalize rid w1 h
            some ⟨reg.events, f.1, rc, f.2.1,
              Action.lockRec rid :: (reg.trace ++ trC ++ f.2.2)⟩

/-- Is an action a cond signal directed at a wait record? -/
def isSignalRec : Action → Bool
  | .condSignalRec _ => true
  | _ => false

/-- Total number of registrations for record rid across a list of events. -/
def regCount (rid : Nat) (es : List Event) : Nat :=
  (es.map (fun e => e.RegisteredWaits.countP (fun info => info.Waiter == rid))).sum

/-- The set of record mutexes held after a list of actions. -/
def lockedAfter : List Nat → List Action → List Nat
  | locked, [] => locked
  | locked, a :: rest =>
      match a with
      | .lockRec r => lockedAfter (r :: locked) rest
      | .unlockRec r => lockedAfter (locked.erase r) rest
      | _ => lockedAfter locked rest

/-- destroysHeldAux locked tr: every destroyRec and freeRec in tr happens
while the mutex of that record is held by this thread. -/
def destroysHeldAux : List Nat → List Action → Bool
  | _, [] => true
  | locked, a :: rest =>
      match a with
      | .lockRec r => destroysHeldAux (r :: locked) rest
      | .unlockRec r => destroysHeldAux (locked.erase r) rest
      | .destroyRec r => locked.contains r && destroysHeldAux locked rest
      | .freeRec r => locked.contains r && destroysHeldAux locked rest
      | _ => destroysHeldAux locked rest

/-- Every record destroy and free in the trace runs with that record mutex
held, the thread having never unlocked it since acquiring it. -/
def destroysHeld (tr : List Action) : Bool :=
  destroysHeldAux [] tr

/-- Actions that neither touch a record mutex nor free a record. -/
def recNeutral : Action → Bool
  | .lockRec _ => false
  | .unlockRec _ => false
  | .destroyRec _ => false
  | .freeRec _ => false
  | _ => true

/-! Helper lemmas about the record heap. -/

theorem findRecord_setRecord_self (h : Heap) (i : Nat) (w : Wfmo) :
    findRecord (setRecord h i w) i = some w := by
  induction h with
  | nil => simp [setRecord, findRecord]
  | cons kv rest ih =>
      obtain ⟨k, v⟩ := kv
      by_cases hk : k = i <;> simp [setRecord, findRecord, hk, ih]

theorem findRecord_setRecord_ne (h : Heap) (i j : Nat) (w : Wfmo) (hij : i ≠ j) :
    findRecord (setRecord h i w) j = findRecord h j := by
  induction h with
  | nil => simp [setRecord, findRecord, hij]
  | cons kv rest ih =>
      obtain ⟨k, v⟩ := kv
      by_cases hk : k = i
      · subst hk
        simp [setRecord, findRecord, hij]
      · simp [setRecord, findRecord, hk, ih]

theorem findRecord_eraseRecord_ne (h : Heap) (i j : Nat) (hij : i ≠ j) :
    findRecord (eraseRecord h i) j = findRecord h j := by
  induction h with
  | nil => simp [eraseRecord]
  | cons kv rest ih =>
      obtain ⟨k, v⟩ := kv
      by_cases hk : k = i
      · subst hk
        simp [eraseRecord, findRecord, hij, Ne.symm hij]
      · simp [eraseRecord, findRecord, hk, ih]

/-! Helper lemmas about the single-event wait loop. -/

/-- The cond wait loop only reports a consumption together with result 0,
and it never consumes on a manual-reset event. -/
theorem waitLoop_consumed (e : Event) :
    ∀ oracle r, waitLoop e oracle = some r →
      (r.result ≠ 0 → r.consumed = false) ∧ (e.AutoReset = false → r.consumed = false) ∧
      r.blocked = true := by
  intro oracle
  induction oracle generalizing e with
  | nil => intro r hr; simp [waitLoop] at hr
  | cons s rest ih =>
      obtain ⟨rc, st⟩ := s
      intro r hr
      simp only [waitLoop] at hr
      split at hr
      · have := ih { e with State := st } r hr
        simpa using this
      · split at hr
        · rename_i hcase hauto
          have h2 : e.AutoReset = true := by simpa using hauto.2
          cases hr
          refine ⟨fun hc => ?_, fun hm => ?_, rfl⟩
          · simp at hc
          · exact absurd h2 (by simp [hm])
        · cases hr
          exact ⟨fun _ => rfl, fun _ => rfl, rfl⟩

/-- Claim C1 (code bug): the claim says the event created by
CreateEvent(manual_reset, initial_state) is signaled iff initial_state, with
SetEvent invoked only when initial_state is requested, so that a zero-timeout
wait after CreateEvent(_, false) returns TIMEOUT. The source calls SetEvent
unconditionally at line 78, so every created event is signaled regardless of
initial_state, and the zero-timeout wait on CreateEvent(false, false)
returns 0 (success), not ETIMEDOUT. -/
theorem C1_create_event_always_signaled :
    (CreateEvent false false).State = true ∧
    (CreateEvent true false).State = true ∧
    (UnlockedWaitForEvent (CreateEvent false false) 0 []).map UWResult.result = some 0 ∧
    (0 : Nat) ≠ ETIMEDOUT := by
  decide

/-- Claim C2 counterexample: a WaitForMultipleEvents call with wait_all =
true over one already-signaled auto-reset event returns success with
fired_index = 0, not -1: line 332 reads Status.FiredEvent unconditionally,
which under wait_all aliases EventsLeft. -/
theorem C2_counterexample :
    (WaitForMultipleEvents [⟨true, true, []⟩] true 5 7 [] []).map
        (fun r => (r.result, r.waitIndex)) = some (0, 0) ∧ (0 : Int) ≠ -1 := by
  decide

/-- Claim C3 counterexample: a wait_all multi-wait over a signaled and an
unsignaled auto-reset event with milliseconds = 0 returns TIMEOUT, yet the
registration pass has already consumed the signaled event (its State went
from true to false and stays false after the call). -/
theorem C3_counterexample :
    (WaitForMultipleEvents [⟨true, true, []⟩, ⟨true, false, []⟩] true 0 7 [] []).map
        (fun r => (r.result, r.events.map Event.State)) = some (ETIMEDOUT, [false, false]) ∧
    Event.State ⟨true, true, []⟩ = true ∧ ETIMEDOUT ≠ 0 := by
  decide

/-- Claim C9 counterexample: WaitForMultipleEvents with count = 0, wait_all
= true and milliseconds = 0 returns TIMEOUT, not success: done is still
false after the registration pass, so the zero-timeout branch at line 291
fires before the wait loop ever checks EventsLeft == 0. -/
theorem C9_counterexample :
    (WaitForMultipleEvents [] true 0 3 [] []).map (fun r => r.result) = some ETIMEDOUT ∧
    ETIMEDOUT ≠ 0 := by
  decide

/-- Claim C8 counterexample: the nanosecond total of line 107 is computed in
uint64 arithmetic and overflows for large millisecond values: with the clock
at 0.0 and milliseconds = 2 ^ 58 (finite: neither 0 nor the all-ones
sentinel), the computed total differs from the exact value
tv_sec * 10^9 + milliseconds * 10^6 + tv_usec * 10^3. -/
theorem C8_counterexample :
    (2 : Nat) ^ 58 ≠ 0 ∧ (2 : Nat) ^ 58 ≠ UINT64MAX ∧
    deadlineNanos 0 0 (2 ^ 58) ≠ 0 * 1000000000 + 2 ^ 58 * 1000000 + 0 * 1000 := by
  refine ⟨by norm_num, by norm_num [UINT64MAX], ?_⟩
  norm_num [deadlineNanos, U64]

/-- Claim C8 amended: the nanosecond total is computed modulo 2 ^ 64;
whenever the exact total tv_sec * 10^9 + milliseconds * 10^6 + tv_usec * 10^3
fits in 64 bits, the deadline equals the current wall-clock time plus exactly
milliseconds, split into the tv_sec / tv_nsec pair with nanosecond
precision. -/
theorem C8_amended (tvSec tvUsec ms : Nat)
    (h : tvSec * 1000000000 + ms * 1000000 + tvUsec * 1000 < U64) :
    deadlineNanos tvSec tvUsec ms = tvSec * 1000000000 + ms * 1000000 + tvUsec * 1000 ∧
    (deadlineTs tvSec tvUsec ms).1
      = (tvSec * 1000000000 + ms * 1000000 + tvUsec * 1000) / 1000000000 ∧
    (deadlineTs tvSec tvUsec ms).2
      = (tvSec * 1000000000 + ms * 1000000 + tvUsec * 1000) % 1000000000 := by
  have e1 : tvSec * 1000 * 1000 * 1000 + ms * 1000 * 1000 + tvUsec * 1000
      = tvSec * 1000000000 + ms * 1000000 + tvUsec * 1000 := by ring
  have hn : deadlineNanos tvSec tvUsec ms
      = tvSec * 1000000000 + ms * 1000000 + tvUsec * 1000 := by
    unfold deadlineNanos
    rw [e1, Nat.mod_eq_of_lt h]
  refine ⟨hn, ?_, ?_⟩
  · simp only [deadlineTs, hn]
    omega
  · simp only [deadlineTs, hn]
    omega

/-- Witness for C8 amended at a concrete clock sample and timeout. -/
theorem C8_amended_witness :
    deadlineNanos 1700000000 500 250 = 1700000000 * 1000000000 + 250 * 1000000 + 500 * 1000 ∧
    (deadlineTs 1700000000 500 250).1
      = (1700000000 * 1000000000 + 250 * 1000000 + 500 * 1000) / 1000000000 ∧
    (deadlineTs 1700000000 500 250).2
      = (1700000000 * 1000000000 + 250 * 1000000 + 500 * 1000) % 1000000000 :=
  C8_amended 1700000000 500 250 (by norm_num [U64])

/-- Claim C7: a manual-reset event whose State is true satisfies every wait
(any timeout) immediately, without blocking and without changing State;
SetEvent leaves a manual-reset event signaled; ResetEvent clears State; and
no wait ever performs the true-to-false consumption on a manual-reset
event, so among the operations only ResetEvent takes State back to false. -/
theorem C7_manual_reset_sticky (e : Event) (hm : e.AutoReset = false) (hs : e.State = true) :
    (∀ ms oracle, UnlockedWaitForEvent e ms oracle = some ⟨0, e, false, false⟩) ∧
    (∀ h, (SetEvent e h).event.State = true) ∧
    ((ResetEvent e).1.State = false) ∧
    (∀ e2 ms oracle r, e2.AutoReset = false → UnlockedWaitForEvent e2 ms oracle = some r →
      r.consumed = false) := by
  refine ⟨?_, ?_, rfl, ?_⟩
  · intro ms oracle
    simp [UnlockedWaitForEvent, hs, hm]
  · intro h
    simp [SetEvent, hm]
  · intro e2 ms oracle r hm2 hr
    by_cases h2 : e2.State = false
    · by_cases h0 : ms = 0
      · simp only [UnlockedWaitForEvent, h2, h0, if_true] at hr
        cases hr
        rfl
      · simp only [UnlockedWaitForEvent, h2, h0, if_true, if_false] at hr
        exact ((waitLoop_consumed e2 oracle r hr).2.1) hm2
    · simp only [UnlockedWaitForEvent, h2, if_false, hm2] at hr
      simp only [Bool.false_eq_true, if_false] at hr
      cases hr
      rfl

/-- Witness for C7 at a concrete signaled manual-reset event. -/
theorem C7_witness :
    (UnlockedWaitForEvent ⟨false, true, []⟩ 25 [] = some ⟨0, ⟨false, true, []⟩, false, false⟩) ∧
    (SetEvent ⟨false, true, []⟩ []).event.State = true ∧
    (ResetEvent ⟨false, true, []⟩).1.State = false := by
  have h := C7_manual_reset_sticky ⟨false, true, []⟩ rfl rfl
  exact ⟨h.1 25 [], h.2.1 [], h.2.2.1⟩

/-- The registration pass never performs a cond wait. -/
theorem registerLoop_trace_no_wait (rid : Nat) (waitAll : Bool) :
    ∀ events i w, Action.condWaitRec ∉ (registerLoop rid waitAll events i w).trace := by
  intro events
  induction events with
  | nil => intro i w; simp [registerLoop]
  | cons e rest ih =>
      intro i w
      simp only [registerLoop]
      split
      · split
        · simpa using ih (i + 1) _
        · simp
      · simpa using ih (i + 1) _

/-- The finalize step never performs a cond wait. -/
theorem wfmoFinalize_trace_no_wait (rid : Nat) (w : Wfmo) (h : Heap) :
    Action.condWaitRec ∉ (wfmoFinalize rid w h).2.2 := by
  simp only [wfmoFinalize]
  split <;> simp

/-- The finalize step reports the final Status field as the out-parameter. -/
theorem wfmoFinalize_waitIndex (rid : Nat) (w : Wfmo) (h : Heap) :
    (wfmoFinalize rid w h).2.1 = w.Status := by
  simp only [wfmoFinalize]
  split <;> rfl

/-- Claim C6: a zero-timeout wait on a non-signaled event returns TIMEOUT
without ever entering a condition wait, both for the single-event path and
for a multi-wait that is not already satisfied by the registration pass. -/
theorem C6_zero_timeout_no_block :
    (∀ e oracle, e.State = false →
      UnlockedWaitForEvent e 0 oracle = some ⟨ETIMEDOUT, e, false, false⟩) ∧
    (∀ events waitAll rid h oracle res,
      (registerLoop rid waitAll events 0 (wfmoInitRecord events.length waitAll)).fired = none →
      WaitForMultipleEvents events waitAll 0 rid h oracle = some res →
      res.result = ETIMEDOUT ∧ Action.condWaitRec ∉ res.trace) := by
  constructor
  · intro e oracle he
    simp [UnlockedWaitForEvent, he]
  · intro events waitAll rid h oracle res hfired hres
    simp only [WaitForMultipleEvents] at hres
    rw [hfired] at hres
    simp only [if_pos rfl] at hres
    cases hres
    refine ⟨rfl, ?_⟩
    simp only [List.mem_cons, List.mem_append]
    push_neg
    exact ⟨by simp, registerLoop_trace_no_wait rid waitAll events 0 _,
      wfmoFinalize_trace_no_wait rid _ h⟩

/-- Witness for C6: an unsignaled auto-reset event, single and multi wait,
with the multi-wait result record spelled out. -/
theorem C6_witness :
    (UnlockedWaitForEvent ⟨true, false, []⟩ 0 []
      = some ⟨ETIMEDOUT, ⟨true, false, []⟩, false, false⟩) ∧
    WFMOResult.result ⟨[⟨true, false, [⟨5, 0⟩]⟩], [(5, ⟨-1, false, 1, false⟩)], ETIMEDOUT, -1,
        [Action.lockRec 5, Action.lockEv 0, Action.unlockEv 0, Action.unlockRec 5]⟩
      = ETIMEDOUT ∧
    Action.condWaitRec ∉ WFMOResult.trace ⟨[⟨true, false, [⟨5, 0⟩]⟩],
        [(5, ⟨-1, false, 1, false⟩)], ETIMEDOUT, -1,
        [Action.lockRec 5, Action.lockEv 0, Action.unlockEv 0, Action.unlockRec 5]⟩ := by
  refine ⟨C6_zero_timeout_no_block.1 ⟨true, false, []⟩ [] rfl, ?_⟩
  exact C6_zero_timeout_no_block.2 [⟨true, false, []⟩] false 5 [] []
    ⟨[⟨true, false, [⟨5, 0⟩]⟩], [(5, ⟨-1, false, 1, false⟩)], ETIMEDOUT, -1,
      [Action.lockRec 5, Action.lockEv 0, Action.unlockEv 0, Action.unlockRec 5]⟩
    (by decide) (by decide)

/-- With waitAll the registration pass never declares the wait done early. -/
theorem registerLoop_waitAll_fired (rid : Nat) :
    ∀ events i w, (registerLoop rid true events i w).fired = none := by
  intro events
  induction events with
  | nil => intro i w; rfl
  | cons e rest ih =>
      intro i w
      simp only [registerLoop]
      split
      · simpa using ih (i + 1) _
      · simpa using ih (i + 1) _

/-- A registration pass that fired records the fired index in Status, and
that index is non-negative. -/
theorem registerLoop_fired_status (rid : Nat) (waitAll : Bool) :
    ∀ events i w j, (registerLoop rid waitAll events i w).fired = some j →
      (registerLoop rid waitAll events i w).record.Status = j ∧ 0 ≤ j := by
  intro events
  induction events with
  | nil => intro i w j hj; simp [registerLoop] at hj
  | cons e rest ih =>
      intro i w j hj
      by_cases hres : ((UnlockedWaitForEvent e 0 []).getD ⟨ETIMEDOUT, e, false, false⟩).result = 0
      · by_cases hwa : waitAll = true
        · subst hwa
          simp only [registerLoop, hres, if_true] at hj ⊢
          exact ih (i + 1) _ j hj
        · have hwa2 : waitAll = false := by simpa using hwa
          subst hwa2
          simp only [registerLoop, hres, if_true, Bool.false_eq_true, if_false] at hj ⊢
          cases hj
          exact ⟨rfl, Int.natCast_nonneg i⟩
      · simp only [registerLoop, hres, if_false] at hj ⊢
        exact ih (i + 1) _ j hj

/-- Without waitAll, a registration pass that did not fire leaves Status
untouched. -/
theorem registerLoop_any_none_status (rid : Nat) :
    ∀ events i w, (registerLoop rid false events i w).fired = none →
      (registerLoop rid false events i w).record.Status = w.Status := by
  intro events
  induction events with
  | nil => intro i w _; rfl
  | cons e rest ih =>
      intro i w hn
      by_cases hres : ((UnlockedWaitForEvent e 0 []).getD ⟨ETIMEDOUT, e, false, false⟩).result = 0
      · simp only [registerLoop, hres, if_true, Bool.false_eq_true, if_false] at hn
        cases hn
      · simp only [registerLoop, hres, if_false] at hn ⊢
        exact ih (i + 1) _ hn

/-- A zero-timeout unlocked wait that fails leaves the event untouched. -/
theorem zeroWait_fail_event (e : Event) :
    ((UnlockedWaitForEvent e 0 []).getD ⟨ETIMEDOUT, e, false, false⟩).result ≠ 0 →
    (UnlockedWaitForEvent e 0 []).getD ⟨ETIMEDOUT, e, false, false⟩
      = ⟨ETIMEDOUT, e, false, false⟩ := by
  intro h
  by_cases hs : e.State = false
  · simp [UnlockedWaitForEvent, hs]
  · exfalso
    apply h
    by_cases ha : e.AutoReset = true <;> simp [UnlockedWaitForEvent, hs, ha]

/-- Without waitAll, a registration pass that did not fire leaves every
event State unchanged (it only appends registrations). -/
theorem registerLoop_any_none_states (rid : Nat) :
    ∀ events i w, (registerLoop rid false events i w).fired = none →
      (registerLoop rid false events i w).events.map Event.State
        = events.map Event.State := by
  intro events
  induction events with
  | nil => intro i w _; rfl
  | cons e rest ih =>
      intro i w hn
      by_cases hres : ((UnlockedWaitForEvent e 0 []).getD ⟨ETIMEDOUT, e, false, false⟩).result = 0
      · simp only [registerLoop, hres, if_true, Bool.false_eq_true, if_false] at hn
        cases hn
      · simp only [registerLoop, hres, if_false] at hn ⊢
        have he := zeroWait_fail_event e hres
        simp only [List.map_cons]
        rw [ih (i + 1) _ hn]
        congr 1
        rw [he]

/-- Once done holds, the wait loop exits at once with result 0. -/
theorem wfmoWaitLoop_of_done (waitAll : Bool) (w : Wfmo) (steps : List WfmoStep)
    (hd : wfmoDone waitAll w = true) :
    wfmoWaitLoop waitAll w steps = some (w, 0, []) := by
  cases steps <;> simp [wfmoWaitLoop, hd]

/-- A wait loop that returns result 0 exits with done true. -/
theorem wfmoWaitLoop_zero_done (waitAll : Bool) :
    ∀ steps w w2 tr, wfmoWaitLoop waitAll w steps = some (w2, 0, tr) →
      wfmoDone waitAll w2 = true := by
  intro steps
  induction steps with
  | nil =>
      intro w w2 tr hw
      simp only [wfmoWaitLoop] at hw
      split at hw
      · cases hw; assumption
      · cases hw
  | cons s rest ih =>
      intro w w2 tr hw
      simp only [wfmoWaitLoop] at hw
      split at hw
      · cases hw; assumption
      · split at hw
        · rename_i hrc
          simp only [Option.some.injEq, Prod.mk.injEq] at hw
          exact absurd hw.2.1 hrc
        · cases hrec : wfmoWaitLoop waitAll
              { w with Status := s.status, RefCount := s.refCount } rest with
          | none => rw [hrec] at hw; cases hw
          | some v =>
              obtain ⟨w3, rc3, tr3⟩ := v
              rw [hrec] at hw
              simp only [Option.some.injEq, Prod.mk.injEq] at hw
              obtain ⟨hw2, hrc0, htr⟩ := hw
              subst hrc0
              rw [← hw2]
              exact ih _ w3 tr3 hrec

/-- Without waitAll, oracle steps that never record a fire keep Status at
the none sentinel through the wait loop. -/
theorem wfmoWaitLoop_any_status_none :
    ∀ (steps : List WfmoStep) (w w2 : Wfmo) (rc : Nat) (tr : List Action),
      (∀ s ∈ steps, s.status = -1) → w.Status = -1 →
      wfmoWaitLoop false w steps = some (w2, rc, tr) → w2.Status = -1 := by
  intro steps
  induction steps with
  | nil =>
      intro w w2 rc tr _ hs hw
      simp [wfmoWaitLoop, wfmoDone, hs] at hw
  | cons s rest ih =>
      intro w w2 rc tr hst hs hw
      have hd : wfmoDone false w = false := by simp [wfmoDone, hs]
      simp only [wfmoWaitLoop, hd, Bool.false_eq_true, if_false] at hw
      split at hw
      · simp only [Option.some.injEq, Prod.mk.injEq] at hw
        rw [← hw.1]
        exact hst s (List.mem_cons_self s rest)
      · cases hrec : wfmoWaitLoop false
            { w with Status := s.status, RefCount := s.refCount } rest with
        | none => rw [hrec] at hw; cases hw
        | some v =>
            obtain ⟨w3, rc3, tr3⟩ := v
            rw [hrec] at hw
            simp only [Option.some.injEq, Prod.mk.injEq] at hw
            obtain ⟨hw2, hrc0, htr⟩ := hw
            rw [← hw2]
            exact ih _ w3 rc3 tr3 (fun x hx => (hst x (List.mem_cons_of_mem s hx)))
              (hst s (List.mem_cons_self s rest)) hrec

/-- Under waitAll the registration pass only decrements Status, at most
once per event. -/
theorem registerLoop_waitAll_status_bound (rid : Nat) :
    ∀ events i (w : Wfmo),
      w.Status - (events.length : Int) ≤ (registerLoop rid true events i w).record.Status ∧
      (registerLoop rid true events i w).record.Status ≤ w.Status := by
  intro events
  induction events with
  | nil => intro i w; simp [registerLoop]
  | cons e rest ih =>
      intro i w
      by_cases hres : ((UnlockedWaitForEvent e 0 []).getD ⟨ETIMEDOUT, e, false, false⟩).result = 0
      · simp only [registerLoop, hres, if_true, List.length_cons]
        have hb1 : (w.Status - 1) - (rest.length : Int)
            ≤ (registerLoop rid true rest (i + 1)
                { w with Status := w.Status - 1 }).record.Status :=
          (ih (i + 1) { w with Status := w.Status - 1 }).1
        have hb2 : (registerLoop rid true rest (i + 1)
              { w with Status := w.Status - 1 }).record.Status ≤ w.Status - 1 :=
          (ih (i + 1) { w with Status := w.Status - 1 }).2
        constructor
        · push_cast
          omega
        · omega
      · simp only [registerLoop, hres, if_false, List.length_cons]
        have hb1 : w.Status - (rest.length : Int)
            ≤ (registerLoop rid true rest (i + 1)
                { w with RefCount := w.RefCount + 1 }).record.Status :=
          (ih (i + 1) { w with RefCount := w.RefCount + 1 }).1
        have hb2 : (registerLoop rid true rest (i + 1)
              { w with RefCount := w.RefCount + 1 }).record.Status ≤ w.Status :=
          (ih (i + 1) { w with RefCount := w.RefCount + 1 }).2
        constructor
        · push_cast
          omega
        · omega

/-- The wait loop keeps Status non-negative when every signaler publishes a
non-negative Status (the code asserts EventsLeft is never negative). -/
theorem wfmoWaitLoop_status_nonneg (waitAll : Bool) :
    ∀ (steps : List WfmoStep) (w w2 : Wfmo) (rc : Nat) (tr : List Action),
      (∀ s ∈ steps, 0 ≤ s.status) → 0 ≤ w.Status →
      wfmoWaitLoop waitAll w steps = some (w2, rc, tr) → 0 ≤ w2.Status := by
  intro steps
  induction steps with
  | nil =>
      intro w w2 rc tr _ hw0 hw
      simp only [wfmoWaitLoop] at hw
      split at hw
      · cases hw; exact hw0
      · cases hw
  | cons s rest ih =>
      intro w w2 rc tr hst hw0 hw
      simp only [wfmoWaitLoop] at hw
      split at hw
      · cases hw; exact hw0
      · split at hw
        · simp only [Option.some.injEq, Prod.mk.injEq] at hw
          rw [← hw.1]
          exact hst s (List.mem_cons_self s rest)
        · cases hrec : wfmoWaitLoop waitAll
              { w with Status := s.status, RefCount := s.refCount } rest with
          | none => rw [hrec] at hw; cases hw
          | some v =>
              obtain ⟨w3, rc3, tr3⟩ := v
              rw [hrec] at hw
              simp only [Option.some.injEq, Prod.mk.injEq] at hw
              rw [← hw.1]
              exact ih _ w3 rc3 tr3 (fun x hx => hst x (List.mem_cons_of_mem s hx))
                (hst s (List.mem_cons_self s rest)) hrec

/-- Claim C2 amended: the out-parameter is the final value of the Status
union read at finalize (line 332 runs unconditionally). With wait_all false
a success reports the fired index (never -1) and a non-success with no
signaler-recorded fire reports -1. With wait_all true the out-parameter is
the remaining EventsLeft count: 0 on success, and on every return it is
non-negative (given the signaler invariant, asserted by the code, that
EventsLeft never goes negative) - so it can be 0 even on a timeout that
observed every event, and it is never -1. -/
theorem C2_amended (events : List Event) (waitAll : Bool) (ms : Nat) (rid : Nat)
    (h : Heap) (oracle : List WfmoStep) (res : WFMOResult)
    (hres : WaitForMultipleEvents events waitAll ms rid h oracle = some res) :
    (waitAll = true → res.result = 0 → res.waitIndex = 0) ∧
    (waitAll = true → (∀ s ∈ oracle, 0 ≤ s.status) → 0 ≤ res.waitIndex) ∧
    (waitAll = false → res.result = 0 → res.waitIndex ≠ -1) ∧
    (waitAll = false → (∀ s ∈ oracle, s.status = -1) → res.result ≠ 0 →
      res.waitIndex = -1) := by
  simp only [WaitForMultipleEvents] at hres
  cases hf : (registerLoop rid waitAll events 0 (wfmoInitRecord events.length waitAll)).fired with
  | some j =>
      rw [hf] at hres
      cases hres
      have hstat := registerLoop_fired_status rid waitAll events 0 _ j hf
      refine ⟨?_, ?_, ?_, ?_⟩
      · intro hwa _
        subst hwa
        rw [registerLoop_waitAll_fired] at hf
        cases hf
      · intro hwa _
        subst hwa
        rw [registerLoop_waitAll_fired] at hf
        cases hf
      · intro _ _
        show (wfmoFinalize rid _ h).2.1 ≠ -1
        rw [wfmoFinalize_waitIndex, hstat.1]
        have := hstat.2
        omega
      · intro _ _ hne
        simp at hne
  | none =>
      rw [hf] at hres
      by_cases hms : ms = 0
      · rw [if_pos hms] at hres
        cases hres
        refine ⟨?_, ?_, ?_, ?_⟩
        · intro _ h0
          simp [ETIMEDOUT] at h0
        · intro hwa _
          subst hwa
          have hb := (registerLoop_waitAll_status_bound rid events 0
            (wfmoInitRecord events.length true)).1
          have hs0 : (wfmoInitRecord events.length true).Status = (events.length : Int) := rfl
          show 0 ≤ (wfmoFinalize rid _ h).2.1
          rw [wfmoFinalize_waitIndex]
          omega
        · intro _ h0
          simp [ETIMEDOUT] at h0
        · intro hwa _ _
          subst hwa
          show (wfmoFinalize rid _ h).2.1 = -1
          rw [wfmoFinalize_waitIndex, registerLoop_any_none_status rid events 0 _ hf]
          simp [wfmoInitRecord]
      · rw [if_neg hms] at hres
        cases hl : wfmoWaitLoop waitAll
            (registerLoop rid waitAll events 0 (wfmoInitRecord events.length waitAll)).record
            oracle with
        | none => rw [hl] at hres; cases hres
        | some v =>
            obtain ⟨w1, rc, trC⟩ := v
            rw [hl] at hres
            cases hres
            refine ⟨?_, ?_, ?_, ?_⟩
            · intro hwa h0
              subst hwa
              have h1 : rc = 0 := h0
              subst h1
              have hd := wfmoWaitLoop_zero_done true oracle _ w1 trC hl
              show (wfmoFinalize rid w1 h).2.1 = 0
              rw [wfmoFinalize_waitIndex]
              simp [wfmoDone] at hd
              exact hd
            · intro hwa hor
              subst hwa
              have hb := (registerLoop_waitAll_status_bound rid events 0
                (wfmoInitRecord events.length true)).1
              have hs0 : (wfmoInitRecord events.length true).Status
                  = (events.length : Int) := rfl
              have hinit : 0 ≤ (registerLoop rid true events 0
                  (wfmoInitRecord events.length true)).record.Status := by omega
              have := wfmoWaitLoop_status_nonneg true oracle _ w1 rc trC hor hinit hl
              show 0 ≤ (wfmoFinalize rid w1 h).2.1
              rw [wfmoFinalize_waitIndex]
              exact this
            · intro hwa h0
              subst hwa
              have h1 : rc = 0 := h0
              subst h1
              have hd := wfmoWaitLoop_zero_done false oracle _ w1 trC hl
              show (wfmoFinalize rid w1 h).2.1 ≠ -1
              rw [wfmoFinalize_waitIndex]
              simp [wfmoDone] at hd
              exact hd
            · intro hwa hst _
              subst hwa
              have hs0 : (registerLoop rid false events 0
                  (wfmoInitRecord events.length false)).record.Status = -1 := by
                rw [registerLoop_any_none_status rid events 0 _ hf]
                simp [wfmoInitRecord]
              have := wfmoWaitLoop_any_status_none oracle _ w1 rc trC hst hs0 hl
              show (wfmoFinalize rid w1 h).2.1 = -1
              rw [wfmoFinalize_waitIndex, this]

/-- Witness for C2 amended: a wait_all timeout over one pre-signaled event
reports the non-negative EventsLeft (here 0), and a one-event any-wait that
fired at registration returns waitIndex 0, not the -1 sentinel. -/
theorem C2_amended_witness :
    (0 : Int) ≤ WFMOResult.waitIndex ⟨[⟨true, false, []⟩], [], ETIMEDOUT, 0,
      [Action.lockRec 7, Action.lockEv 0, Action.unlockEv 0,
        Action.destroyRec 7, Action.freeRec 7]⟩ ∧
    WFMOResult.waitIndex ⟨[⟨true, false, []⟩], [], 0, 0,
      [Action.lockRec 7, Action.lockEv 0, Action.unlockEv 0,
        Action.destroyRec 7, Action.freeRec 7]⟩ ≠ -1 := by
  constructor
  · exact (C2_amended [⟨true, true, []⟩] true 0 7 [] []
      ⟨[⟨true, false, []⟩], [], ETIMEDOUT, 0,
        [Action.lockRec 7, Action.lockEv 0, Action.unlockEv 0,
          Action.destroyRec 7, Action.freeRec 7]⟩ (by decide)).2.1 rfl (by simp)
  · exact (C2_amended [⟨true, true, []⟩] false 5 7 [] []
      ⟨[⟨true, false, []⟩], [], 0, 0,
        [Action.lockRec 7, Action.lockEv 0, Action.unlockEv 0,
          Action.destroyRec 7, Action.freeRec 7]⟩ (by decide)).2.2.1 rfl rfl

/-- Claim C3 amended: a TIMEOUT return of the single-event wait performs no
consumption, and a TIMEOUT return of a wait_all = false multi-wait leaves
every event State exactly as found; under wait_all = true, events consumed
by the zero-timeout checks of the registration pass stay consumed even when
the call then returns TIMEOUT (see the counterexample). -/
theorem C3_amended :
    (∀ e ms oracle r, UnlockedWaitForEvent e ms oracle = some r → r.result ≠ 0 →
      r.consumed = false) ∧
    (∀ events ms rid h oracle res,
      WaitForMultipleEvents events false ms rid h oracle = some res → res.result ≠ 0 →
      res.events.map Event.State = events.map Event.State) := by
  constructor
  · intro e ms oracle r hr hne
    by_cases hs : e.State = false
    · by_cases h0 : ms = 0
      · simp only [UnlockedWaitForEvent, hs, h0, if_true] at hr
        cases hr
        rfl
      · simp only [UnlockedWaitForEvent, hs, h0, if_true, if_false] at hr
        exact (waitLoop_consumed e oracle r hr).1 hne
    · have hs2 : e.State = true := by simpa using hs
      simp only [UnlockedWaitForEvent, hs2] at hr
      rw [if_neg (by simp)] at hr
      split at hr
      · cases hr
        simp at hne
      · cases hr
        simp at hne
  · intro events ms rid h oracle res hres hne
    simp only [WaitForMultipleEvents] at hres
    cases hf : (registerLoop rid false events 0 (wfmoInitRecord events.length false)).fired with
    | some j =>
        rw [hf] at hres
        cases hres
        simp at hne
    | none =>
        rw [hf] at hres
        by_cases hms : ms = 0
        · rw [if_pos hms] at hres
          cases hres
          exact registerLoop_any_none_states rid events 0 _ hf
        · rw [if_neg hms] at hres
          cases hl : wfmoWaitLoop false
              (registerLoop rid false events 0 (wfmoInitRecord events.length false)).record
              oracle with
          | none => rw [hl] at hres; cases hres
          | some v =>
              obtain ⟨w1, rc, trC⟩ := v
              rw [hl] at hres
              cases hres
              exact registerLoop_any_none_states rid events 0 _ hf

/-- Witness for C3 amended: zero-timeout single wait on an unsignaled event,
and a one-event any-wait that timed out, leaving the event State as found. -/
theorem C3_amended_witness :
    UWResult.consumed ⟨ETIMEDOUT, ⟨true, false, []⟩, false, false⟩ = false ∧
    List.map Event.State (WFMOResult.events ⟨[⟨true, false, [⟨5, 0⟩]⟩],
        [(5, ⟨-1, false, 1, false⟩)], ETIMEDOUT, -1,
        [Action.lockRec 5, Action.lockEv 0, Action.unlockEv 0, Action.unlockRec 5]⟩)
      = List.map Event.State [⟨true, false, []⟩] := by
  constructor
  · exact C3_amended.1 ⟨true, false, []⟩ 0 [] _ (by decide) (by decide)
  · exact C3_amended.2 [⟨true, false, []⟩] 0 5 [] []
      ⟨[⟨true, false, [⟨5, 0⟩]⟩], [(5, ⟨-1, false, 1, false⟩)], ETIMEDOUT, -1,
        [Action.lockRec 5, Action.lockEv 0, Action.unlockEv 0, Action.unlockRec 5]⟩
      (by decide) (by decide)

/-- Without waitAll and with only spurious wakeups that record no fire, the
wait loop never returns. -/
theorem wfmoWaitLoop_any_spurious :
    ∀ (steps : List WfmoStep) (w : Wfmo), w.Status = -1 →
      (∀ s ∈ steps, s.rc = 0 ∧ s.status = -1) →
      wfmoWaitLoop false w steps = none := by
  intro steps
  induction steps with
  | nil =>
      intro w hs _
      simp [wfmoWaitLoop, wfmoDone, hs]
  | cons s rest ih =>
      intro w hs hst
      have hd : wfmoDone false w = false := by simp [wfmoDone, hs]
      have hrc := (hst s (List.mem_cons_self s rest)).1
      have hrec := ih { w with Status := s.status, RefCount := s.refCount }
        ((hst s (List.mem_cons_self s rest)).2)
        (fun x hx => hst x (List.mem_cons_of_mem s hx))
      simp [wfmoWaitLoop, hd, hrc, hrec]

/-- Without waitAll, spurious wakeups followed by a timed-out cond wait make
the loop break with that return code, Status still the none sentinel. -/
theorem wfmoWaitLoop_any_break :
    ∀ (pre : List WfmoStep) (w : Wfmo) (s : WfmoStep), w.Status = -1 →
      (∀ x ∈ pre, x.rc = 0 ∧ x.status = -1) → s.rc ≠ 0 →
      ∃ tr, wfmoWaitLoop false w (pre ++ [s])
        = some ({ w with Status := s.status, RefCount := s.refCount }, s.rc, tr) := by
  intro pre
  induction pre with
  | nil =>
      intro w s hs _ hrc
      have hd : wfmoDone false w = false := by simp [wfmoDone, hs]
      refine ⟨[Action.condWaitRec], ?_⟩
      simp [wfmoWaitLoop, hd, hrc]
  | cons x rest ih =>
      intro w s hs hst hrc
      have hd : wfmoDone false w = false := by simp [wfmoDone, hs]
      have hx := hst x (List.mem_cons_self x rest)
      obtain ⟨tr, htr⟩ := ih { w with Status := x.status, RefCount := x.refCount } s
        (hx.2) (fun y hy => hst y (List.mem_cons_of_mem x hy)) hrc
      refine ⟨Action.condWaitRec :: tr, ?_⟩
      simp [wfmoWaitLoop, hd, hx.1, htr]

/-- Claim C9 amended: with count = 0 and wait_all = true the call returns
success immediately (without any cond wait) for every nonzero timeout, but
returns TIMEOUT when milliseconds = 0 (the zero-timeout branch runs before
the done check); with wait_all = false it can never observe a fired event:
with only spurious wakeups it stays blocked (for the infinite sentinel this
is blocking forever), and when the timed wait reports ETIMEDOUT the call
returns TIMEOUT with fired_index = -1. -/
theorem C9_amended :
    (∀ ms rid h oracle res, ms ≠ 0 →
      WaitForMultipleEvents [] true ms rid h oracle = some res →
      res.result = 0 ∧ Action.condWaitRec ∉ res.trace) ∧
    (∀ rid h oracle,
      (WaitForMultipleEvents [] true 0 rid h oracle).map (fun r => r.result)
        = some ETIMEDOUT) ∧
    (∀ ms rid h oracle, ms ≠ 0 → (∀ s ∈ oracle, s.rc = 0 ∧ s.status = -1) →
      WaitForMultipleEvents [] false ms rid h oracle = none) ∧
    (∀ ms rid h pre s, ms ≠ 0 → (∀ x ∈ pre, x.rc = 0 ∧ x.status = -1) →
      s.rc = ETIMEDOUT → s.status = -1 →
      (WaitForMultipleEvents [] false ms rid h (pre ++ [s])).map
        (fun r => (r.result, r.waitIndex)) = some (ETIMEDOUT, -1)) := by
  refine ⟨?_, ?_, ?_, ?_⟩
  · intro ms rid h oracle res hms hres
    have hd : wfmoDone true (wfmoInitRecord 0 true) = true := by decide
    simp only [WaitForMultipleEvents, registerLoop, List.length_nil] at hres
    rw [if_neg hms, wfmoWaitLoop_of_done true _ oracle hd] at hres
    cases hres
    constructor
    · rfl
    · simp [wfmoFinalize, wfmoInitRecord]
  · intro rid h oracle
    simp only [WaitForMultipleEvents, registerLoop, List.length_nil]
    simp
  · intro ms rid h oracle hms hst
    have hs : (wfmoInitRecord 0 false).Status = -1 := rfl
    simp only [WaitForMultipleEvents, registerLoop, List.length_nil]
    rw [if_neg hms, wfmoWaitLoop_any_spurious oracle _ hs hst]
  · intro ms rid h pre s hms hst hrc hstat
    have hs : (wfmoInitRecord 0 false).Status = -1 := rfl
    obtain ⟨tr, htr⟩ := wfmoWaitLoop_any_break pre (wfmoInitRecord 0 false) s hs hst
      (by rw [hrc]; decide)
    simp only [WaitForMultipleEvents, registerLoop, List.length_nil]
    rw [if_neg hms, htr]
    simp only [Option.map_some]
    rw [wfmoFinalize_waitIndex]
    simp [hrc, hstat]

/-- Witness for C9 amended: count 0 with a 5 ms timeout under wait_all, and
the any case with a single timing-out cond wait. -/
theorem C9_amended_witness :
    WFMOResult.result ⟨[], [], 0, 0,
      [Action.lockRec 2, Action.destroyRec 2, Action.freeRec 2]⟩ = 0 ∧
    (WaitForMultipleEvents [] false 5 2 [] ([] ++ [⟨ETIMEDOUT, -1, 1⟩])).map
      (fun r => (r.result, r.waitIndex)) = some (ETIMEDOUT, -1) := by
  constructor
  · exact (C9_amended.1 5 2 [] []
      ⟨[], [], 0, 0, [Action.lockRec 2, Action.destroyRec 2, Action.freeRec 2]⟩
      (by decide) (by decide)).1
  · exact C9_amended.2.2.2 5 2 [] [] ⟨ETIMEDOUT, -1, 1⟩ (by decide) (by simp) rfl rfl

/-- Walking the queue over a stale-only front: the first live waiter is
found, updated, popped, and signaled, and the walk stops there. -/
theorem setEventAutoLoop_live (pre : List WaitInfo) :
    ∀ (h : Heap) (info : WaitInfo) (rest : List WaitInfo) (w : Wfmo),
      (∀ p ∈ pre, ∀ wp, findRecord h p.Waiter = some wp → wp.StillWaiting = false) →
      (∀ p ∈ pre, p.Waiter ≠ info.Waiter) →
      (pre.map WaitInfo.Waiter).Nodup →
      findRecord h info.Waiter = some w → w.StillWaiting = true →
      (setEventAutoLoop h (pre ++ info :: rest)).fired = some info.Waiter ∧
      (setEventAutoLoop h (pre ++ info :: rest)).waits = rest ∧
      findRecord (setEventAutoLoop h (pre ++ info :: rest)).heap info.Waiter
        = some (liveUpdate { w with RefCount := w.RefCount - 1 } info) ∧
      (setEventAutoLoop h (pre ++ info :: rest)).trace.filter isSignalRec
        = [Action.condSignalRec info.Waiter] ∧
      Action.condSignalEv ∉ (setEventAutoLoop h (pre ++ info :: rest)).trace := by
  induction pre with
  | nil =>
      intro h info rest w _ _ _ hw hlive
      simp [setEventAutoLoop, visitRegistration, hw, hlive, isSignalRec,
        findRecord_setRecord_self]
  | cons p pre2 ih =>
      intro h info rest w hpre hne hnd hw hlive
      have hnep : p.Waiter ≠ info.Waiter := hne p (List.mem_cons_self p pre2)
      cases hp : findRecord h p.Waiter with
      | none =>
          have hrec := ih h info rest w
            (fun q hq wq hfq => hpre q (List.mem_cons_of_mem p hq) wq hfq)
            (fun q hq => hne q (List.mem_cons_of_mem p hq))
            (by simpa using hnd.of_cons) hw hlive
          simp only [List.cons_append, setEventAutoLoop, visitRegistration, hp]
          simpa using hrec
      | some wp =>
          have hstale : wp.StillWaiting = false := hpre p (List.mem_cons_self p pre2) wp hp
          have hpnotin : p.Waiter ∉ pre2.map WaitInfo.Waiter := by
            rw [List.map_cons] at hnd
            exact (List.nodup_cons.mp hnd).1
          have hnd2 : (pre2.map WaitInfo.Waiter).Nodup := by
            rw [List.map_cons] at hnd
            exact (List.nodup_cons.mp hnd).2
          by_cases hz : wp.RefCount - 1 = 0
          · have hrec := ih (eraseRecord h p.Waiter) info rest w
              (fun q hq wq hfq => by
                have hqne : q.Waiter ≠ p.Waiter := by
                  intro hc
                  exact hpnotin (hc ▸ List.mem_map_of_mem WaitInfo.Waiter hq)
                rw [findRecord_eraseRecord_ne h p.Waiter q.Waiter (fun hc => hqne hc.symm)] at hfq
                exact hpre q (List.mem_cons_of_mem p hq) wq hfq)
              (fun q hq => hne q (List.mem_cons_of_mem p hq)) hnd2
              (by rw [findRecord_eraseRecord_ne h p.Waiter info.Waiter hnep]; exact hw) hlive
            simpa [List.cons_append, setEventAutoLoop, visitRegistration, hp, hstale, hz,
              isSignalRec] using hrec
          · have hrec := ih (setRecord h p.Waiter { wp with RefCount := wp.RefCount - 1 })
              info rest w
              (fun q hq wq hfq => by
                by_cases hqp : q.Waiter = p.Waiter
                · rw [hqp, findRecord_setRecord_self] at hfq
                  cases hfq
                  exact hstale
                · rw [findRecord_setRecord_ne h p.Waiter q.Waiter _
                    (fun hc => hqp hc.symm)] at hfq
                  exact hpre q (List.mem_cons_of_mem p hq) wq hfq)
              (fun q hq => hne q (List.mem_cons_of_mem p hq)) hnd2
              (by rw [findRecord_setRecord_ne h p.Waiter info.Waiter _ hnep]; exact hw) hlive
            simpa [List.cons_append, setEventAutoLoop, visitRegistration, hp, hstale, hz,
              isSignalRec] using hrec

/-- Walking a queue whose waiters have all departed: nothing fires, the
queue is drained, and no signal at all is emitted by the walk. -/
theorem setEventAutoLoop_all_stale (waits : List WaitInfo) :
    ∀ h, (waits.map WaitInfo.Waiter).Nodup →
      (∀ p ∈ waits, ∀ wp, findRecord h p.Waiter = some wp → wp.StillWaiting = false) →
      (setEventAutoLoop h waits).fired = none ∧
      (setEventAutoLoop h waits).waits = [] ∧
      (setEventAutoLoop h waits).trace.filter isSignalRec = [] ∧
      Action.condSignalEv ∉ (setEventAutoLoop h waits).trace := by
  induction waits with
  | nil =>
      intro h _ _
      exact ⟨rfl, rfl, rfl, by simp [setEventAutoLoop]⟩
  | cons p rest ih =>
      intro h hnd hpre
      have hpnotin : p.Waiter ∉ rest.map WaitInfo.Waiter := by
        rw [List.map_cons] at hnd
        exact (List.nodup_cons.mp hnd).1
      have hnd2 : (rest.map WaitInfo.Waiter).Nodup := by
        rw [List.map_cons] at hnd
        exact (List.nodup_cons.mp hnd).2
      cases hp : findRecord h p.Waiter with
      | none =>
          have hrec := ih h hnd2 (fun q hq wq hfq => hpre q (List.mem_cons_of_mem p hq) wq hfq)
          simp only [setEventAutoLoop, visitRegistration, hp]
          simpa using hrec
      | some wp =>
          have hstale : wp.StillWaiting = false := hpre p (List.mem_cons_self p rest) wp hp
          by_cases hz : wp.RefCount - 1 = 0
          · have hrec := ih (eraseRecord h p.Waiter) hnd2
              (fun q hq wq hfq => by
                have hqne : q.Waiter ≠ p.Waiter := by
                  intro hc
                  exact hpnotin (hc ▸ List.mem_map_of_mem WaitInfo.Waiter hq)
                rw [findRecord_eraseRecord_ne h p.Waiter q.Waiter (fun hc => hqne hc.symm)] at hfq
                exact hpre q (List.mem_cons_of_mem p hq) wq hfq)
            simpa [setEventAutoLoop, visitRegistration, hp, hstale, hz, isSignalRec] using hrec
          · have hrec := ih (setRecord h p.Waiter { wp with RefCount := wp.RefCount - 1 }) hnd2
              (fun q hq wq hfq => by
                by_cases hqp : q.Waiter = p.Waiter
                · rw [hqp, findRecord_setRecord_self] at hfq
                  cases hfq
                  exact hstale
                · rw [findRecord_setRecord_ne h p.Waiter q.Waiter _
                    (fun hc => hqp hc.symm)] at hfq
                  exact hpre q (List.mem_cons_of_mem p hq) wq hfq)
            simpa [setEventAutoLoop, visitRegistration, hp, hstale, hz, isSignalRec] using hrec

/-- Claim C4: SetEvent on an auto-reset event delivers to at most one
waiter. If the queue is a stale front followed by a live registered waiter,
exactly that waiter is updated and signaled, State is set back to false,
the entry is popped (only the tail remains), and no single-waiter signal is
sent. If every registered waiter has departed, State stays true, the queue
is drained, and exactly one cond signal goes to a single-waiter. -/
theorem C4_auto_reset_single_delivery (e : Event) (h : Heap)
    (hauto : e.AutoReset = true)
    (hnd : (e.RegisteredWaits.map WaitInfo.Waiter).Nodup) :
    (∀ pre info rest w, e.RegisteredWaits = pre ++ info :: rest →
      (∀ p ∈ pre, ∀ wp, findRecord h p.Waiter = some wp → wp.StillWaiting = false) →
      findRecord h info.Waiter = some w → w.StillWaiting = true →
      (SetEvent e h).event.State = false ∧
      (SetEvent e h).event.RegisteredWaits = rest ∧
      (SetEvent e h).result = 0 ∧
      findRecord (SetEvent e h).heap info.Waiter
        = some (liveUpdate { w with RefCount := w.RefCount - 1 } info) ∧
      (SetEvent e h).trace.filter isSignalRec = [Action.condSignalRec info.Waiter] ∧
      Action.condSignalEv ∉ (SetEvent e h).trace) ∧
    ((∀ p ∈ e.RegisteredWaits, ∀ wp, findRecord h p.Waiter = some wp →
        wp.StillWaiting = false) →
      (SetEvent e h).event.State = true ∧
      (SetEvent e h).event.RegisteredWaits = [] ∧
      (SetEvent e h).trace.filter isSignalRec = [] ∧
      (SetEvent e h).trace.count Action.condSignalEv = 1) := by
  constructor
  · intro pre info rest w hsplit hpre hw hlive
    rw [hsplit] at hnd
    rw [List.map_append, List.nodup_append] at hnd
    have hne : ∀ p ∈ pre, p.Waiter ≠ info.Waiter := by
      intro p hp heq
      exact hnd.2.2 (List.mem_map_of_mem WaitInfo.Waiter hp) (by simp [heq])
    have hloop := setEventAutoLoop_live pre h info rest w hpre hne hnd.1 hw hlive
    simp only [SetEvent]
    rw [hsplit, hloop.1, if_pos hauto]
    refine ⟨rfl, hloop.2.1, rfl, hloop.2.2.1, ?_, ?_⟩
    · simp [List.filter_append, isSignalRec, hloop.2.2.2.1]
    · simp [hloop.2.2.2.2]
  · intro hall
    have hloop := setEventAutoLoop_all_stale e.RegisteredWaits h hnd hall
    simp only [SetEvent]
    rw [hloop.1, if_pos hauto]
    refine ⟨rfl, hloop.2.1, ?_, ?_⟩
    · simp [List.filter_append, isSignalRec, hloop.2.2.1]
    · simp only [List.count_cons, List.count_append]
      rw [List.count_eq_zero.mpr hloop.2.2.2]
      simp

/-- Witness for C4: one live any-mode registered waiter (record 1, two
references) on a signaled auto-reset event. -/
theorem C4_witness :
    (SetEvent ⟨true, false, [⟨1, 0⟩]⟩ [(1, ⟨-1, true, 2, false⟩)]).event.State = false ∧
    findRecord (SetEvent ⟨true, false, [⟨1, 0⟩]⟩ [(1, ⟨-1, true, 2, false⟩)]).heap 1
      = some ⟨0, false, 1, false⟩ ∧
    (SetEvent ⟨true, false, [⟨1, 0⟩]⟩ [(1, ⟨-1, true, 2, false⟩)]).trace.filter isSignalRec
      = [Action.condSignalRec 1] := by
  have h := (C4_auto_reset_single_delivery ⟨true, false, [⟨1, 0⟩]⟩ [(1, ⟨-1, true, 2, false⟩)]
    rfl (by simp)).1 [] ⟨1, 0⟩ [] ⟨-1, true, 2, false⟩ rfl (by simp) rfl rfl
  exact ⟨h.1, h.2.2.2.1, h.2.2.2.2.1⟩

/-- destroysHeldAux distributes over append, with the held set threaded by
lockedAfter. -/
theorem destroysHeldAux_append :
    ∀ (t1 : List Action) (locked : List Nat) (t2 : List Action),
      destroysHeldAux locked (t1 ++ t2)
        = (destroysHeldAux locked t1 && destroysHeldAux (lockedAfter locked t1) t2) := by
  intro t1
  induction t1 with
  | nil => intro locked t2; simp [destroysHeldAux, lockedAfter]
  | cons a rest ih =>
      intro locked t2
      cases a <;> simp [destroysHeldAux, lockedAfter, ih, Bool.and_assoc]

/-- destroysHeldAux skips over record-neutral actions. -/
theorem destroysHeldAux_neutral :
    ∀ (t1 : List Action), (∀ a ∈ t1, recNeutral a = true) →
      ∀ (locked : List Nat) (t2 : List Action),
        destroysHeldAux locked (t1 ++ t2) = destroysHeldAux locked t2 := by
  intro t1
  induction t1 with
  | nil => intro _ locked t2; rfl
  | cons a rest ih =>
      intro hn locked t2
      have ha := hn a (List.mem_cons_self a rest)
      have hrest := fun x hx => hn x (List.mem_cons_of_mem a hx)
      cases a <;> simp [recNeutral] at ha ⊢ <;>
        exact ih hrest locked t2

/-- Every action of the registration pass is an event lock or unlock. -/
theorem registerLoop_trace_ev (rid : Nat) (waitAll : Bool) :
    ∀ events i w a, a ∈ (registerLoop rid waitAll events i w).trace →
      recNeutral a = true := by
  intro events
  induction events with
  | nil => intro i w a ha; simp [registerLoop] at ha
  | cons e rest ih =>
      intro i w a ha
      by_cases hres : ((UnlockedWaitForEvent e 0 []).getD ⟨ETIMEDOUT, e, false, false⟩).result = 0
      · by_cases hwa : waitAll = true
        · subst hwa
          simp only [registerLoop, hres, if_true] at ha
          simp only [List.mem_cons] at ha
          rcases ha with ha | ha | ha
          · rw [ha]; rfl
          · rw [ha]; rfl
          · exact ih (i + 1) _ a ha
        · have hwa2 : waitAll = false := by simpa using hwa
          subst hwa2
          simp only [registerLoop, hres, if_true, Bool.false_eq_true, if_false] at ha
          simp only [List.mem_cons, List.not_mem_nil, or_false] at ha
          rcases ha with ha | ha <;> · rw [ha]; rfl
      · simp only [registerLoop, hres, if_false] at ha
        simp only [List.mem_cons] at ha
        rcases ha with ha | ha | ha
        · rw [ha]; rfl
        · rw [ha]; rfl
        · exact ih (i + 1) _ a ha

/-- Every action of the multi-wait cond loop is a cond wait. -/
theorem wfmoWaitLoop_trace_wait (waitAll : Bool) :
    ∀ steps w w2 rc tr, wfmoWaitLoop waitAll w steps = some (w2, rc, tr) →
      ∀ a ∈ tr, a = Action.condWaitRec := by
  intro steps
  induction steps with
  | nil =>
      intro w w2 rc tr hw
      simp only [wfmoWaitLoop] at hw
      split at hw
      · cases hw; simp
      · cases hw
  | cons s rest ih =>
      intro w w2 rc tr hw
      simp only [wfmoWaitLoop] at hw
      split at hw
      · cases hw; simp
      · split at hw
        · cases hw
          simp
        · cases hrec : wfmoWaitLoop waitAll
              { w with Status := s.status, RefCount := s.refCount } rest with
          | none => rw [hrec] at hw; cases hw
          | some v =>
              obtain ⟨w3, rc3, tr3⟩ := v
              rw [hrec] at hw
              simp only [Option.some.injEq, Prod.mk.injEq] at hw
              obtain ⟨hw2, hrc0, htr⟩ := hw
              intro a ha
              rw [← htr] at ha
              simp only [List.mem_cons] at ha
              rcases ha with ha | ha
              · exact ha
              · exact ih _ w3 rc3 tr3 hrec a ha

/-- The auto-reset walk of SetEvent frees records only while holding their
mutex, never having unlocked it since the acquisition. -/
theorem setEventAutoLoop_destroys_held (waits : List WaitInfo) :
    ∀ h locked, destroysHeldAux locked (setEventAutoLoop h waits).trace = true := by
  induction waits with
  | nil => intro h locked; rfl
  | cons info rest ih =>
      intro h locked
      cases hp : findRecord h info.Waiter with
      | none =>
          simp only [setEventAutoLoop, visitRegistration, hp]
          simpa using ih h locked
      | some wp =>
          by_cases hsw : wp.StillWaiting = false
          · by_cases hz : wp.RefCount - 1 = 0
            · simp [setEventAutoLoop, visitRegistration, hp, hsw, hz, destroysHeldAux, ih]
            · simp [setEventAutoLoop, visitRegistration, hp, hsw, hz, destroysHeldAux,
                List.erase_cons_head, ih]
          · have hsw2 : wp.StillWaiting = true := by simpa using hsw
            simp [setEventAutoLoop, visitRegistration, hp, hsw2, destroysHeldAux]

/-- The manual-reset walk of SetEvent frees records only while holding
their mutex. -/
theorem setEventManualLoop_destroys_held (waits : List WaitInfo) :
    ∀ h locked, destroysHeldAux locked (setEventManualLoop h waits).2 = true := by
  induction waits with
  | nil => intro h locked; rfl
  | cons info rest ih =>
      intro h locked
      cases hp : findRecord h info.Waiter with
      | none =>
          simp only [setEventManualLoop, visitRegistration, hp]
          simpa using ih h locked
      | some wp =>
          by_cases hsw : wp.StillWaiting = false
          · by_cases hz : wp.RefCount - 1 = 0
            · simp [setEventManualLoop, visitRegistration, hp, hsw, hz, destroysHeldAux, ih]
            · simp [setEventManualLoop, visitRegistration, hp, hsw, hz, destroysHeldAux,
                List.erase_cons_head, ih]
          · have hsw2 : wp.StillWaiting = true := by simpa using hsw
            simp [setEventManualLoop, visitRegistration, hp, hsw2, destroysHeldAux,
              List.erase_cons_head, ih]

/-- Claim C10: on every path that frees a wait record - the final decrement
at the end of WaitForMultipleEvents and the cleanup of a departed waiter
inside SetEvent - the freeing thread still holds the record mutex when
Destroy and delete run, never having unlocked it in between. -/
theorem C10_destroy_under_record_mutex :
    (∀ e h, destroysHeld (SetEvent e h).trace = true) ∧
    (∀ events waitAll ms rid h oracle res,
      WaitForMultipleEvents events waitAll ms rid h oracle = some res →
      destroysHeld res.trace = true) := by
  constructor
  · intro e h
    simp only [SetEvent]
    by_cases ha : ({ e with State := true } : Event).AutoReset = true
    · rw [if_pos ha]
      cases hf : (setEventAutoLoop h ({ e with State := true } : Event).RegisteredWaits).fired
      · simp only [destroysHeld, destroysHeldAux]
        rw [destroysHeldAux_append]
        rw [setEventAutoLoop_destroys_held _ h []]
        rfl
      · simp only [destroysHeld, destroysHeldAux]
        rw [destroysHeldAux_append]
        rw [setEventAutoLoop_destroys_held _ h []]
        rfl
    · rw [if_neg ha]
      simp only [destroysHeld, destroysHeldAux]
      rw [destroysHeldAux_append]
      rw [setEventManualLoop_destroys_held _ h []]
      rfl
  · intro events waitAll ms rid h oracle res hres
    simp only [WaitForMultipleEvents] at hres
    have hreg : ∀ a ∈ (registerLoop rid waitAll events 0
        (wfmoInitRecord events.length waitAll)).trace, recNeutral a = true :=
      registerLoop_trace_ev rid waitAll events 0 _
    have hfin : ∀ w, destroysHeldAux [rid] (wfmoFinalize rid w h).2.2 = true := by
      intro w
      simp only [wfmoFinalize]
      split
      · simp [destroysHeldAux]
      · simp [destroysHeldAux]
    cases hf : (registerLoop rid waitAll events 0
        (wfmoInitRecord events.length waitAll)).fired with
    | some j =>
        rw [hf] at hres
        cases hres
        simp only [destroysHeld, destroysHeldAux]
        rw [destroysHeldAux_neutral _ hreg [rid] _]
        exact hfin _
    | none =>
        rw [hf] at hres
        by_cases hms : ms = 0
        · rw [if_pos hms] at hres
          cases hres
          simp only [destroysHeld, destroysHeldAux]
          rw [destroysHeldAux_neutral _ hreg [rid] _]
          exact hfin _
        · rw [if_neg hms] at hres
          cases hl : wfmoWaitLoop waitAll (registerLoop rid waitAll events 0
              (wfmoInitRecord events.length waitAll)).record oracle with
          | none => rw [hl] at hres; cases hres
          | some v =>
              obtain ⟨w1, rc, trC⟩ := v
              rw [hl] at hres
              cases hres
              have hC : ∀ a ∈ trC, recNeutral a = true := by
                intro a ha
                rw [wfmoWaitLoop_trace_wait waitAll oracle _ w1 rc trC hl a ha]
                rfl
              simp only [destroysHeld, destroysHeldAux]
              rw [destroysHeldAux_neutral _ (by
                intro a ha
                rcases List.mem_append.mp ha with ha | ha
                · exact hreg a ha
                · exact hC a ha) [rid] _]
              exact hfin _

/-- Witness for C10: a SetEvent that frees a departed record, and a
multi-wait whose final decrement frees its own record. -/
theorem C10_witness :
    destroysHeld (SetEvent ⟨true, false, [⟨1, 0⟩]⟩ [(1, ⟨-1, false, 1, false⟩)]).trace
      = true ∧
    destroysHeld (WFMOResult.trace ⟨[], [], 0, 0,
      [Action.lockRec 2, Action.destroyRec 2, Action.freeRec 2]⟩) = true := by
  constructor
  · exact C10_destroy_under_record_mutex.1 ⟨true, false, [⟨1, 0⟩]⟩ [(1, ⟨-1, false, 1, false⟩)]
  · exact C10_destroy_under_record_mutex.2 [] true 5 2 [] []
      ⟨[], [], 0, 0, [Action.lockRec 2, Action.destroyRec 2, Action.freeRec 2]⟩ (by decide)

/-- The live update of a signaler never touches RefCount. -/
theorem liveUpdate_refcount (w : Wfmo) (info : WaitInfo) :
    (liveUpdate w info).RefCount = w.RefCount := by
  simp only [liveUpdate]
  split <;> rfl

/-- A successful or failed zero-timeout wait preserves RegisteredWaits. -/
theorem zeroWait_waits (e : Event) :
    ((UnlockedWaitForEvent e 0 []).getD ⟨ETIMEDOUT, e, false, false⟩).event.RegisteredWaits
      = e.RegisteredWaits := by
  by_cases hs : e.State = false
  · simp [UnlockedWaitForEvent, hs]
  · by_cases ha : e.AutoReset = true <;> simp [UnlockedWaitForEvent, hs, ha]

/-- The registration pass increments RefCount once per registration it
appends: starting from a record id absent from every queue, the final
RefCount is the initial one plus the number of appended registrations. -/
theorem registerLoop_refcount (rid : Nat) (waitAll : Bool) :
    ∀ events i w, regCount rid events = 0 →
      (registerLoop rid waitAll events i w).record.RefCount
        = w.RefCount + (regCount rid (registerLoop rid waitAll events i w).events : Int) := by
  intro events
  induction events with
  | nil => intro i w _; simp [registerLoop, regCount]
  | cons e rest ih =>
      intro i w hf
      have hf0 : e.RegisteredWaits.countP (fun info => info.Waiter == rid)
          + regCount rid rest = 0 := by
        simpa [regCount] using hf
      have hf1 : e.RegisteredWaits.countP (fun info => info.Waiter == rid) = 0 := by omega
      have hf2 : regCount rid rest = 0 := by omega
      by_cases hres : ((UnlockedWaitForEvent e 0 []).getD ⟨ETIMEDOUT, e, false, false⟩).result = 0
      · by_cases hwa : waitAll = true
        · subst hwa
          simp only [registerLoop, hres, if_true]
          rw [ih (i + 1) _ hf2]
          simp only [regCount, List.map_cons, List.sum_cons, zeroWait_waits, hf1]
          push_cast
          ring
        · have hwa2 : waitAll = false := by simpa using hwa
          subst hwa2
          simp only [registerLoop, hres, if_true, Bool.false_eq_true, if_false]
          simp only [regCount, List.map_cons, List.sum_cons, zeroWait_waits, hf1]
          have : (rest.map
              (fun e => e.RegisteredWaits.countP (fun info => info.Waiter == rid))).sum = 0 := by
            simpa [regCount] using hf2
          rw [this]
          simp
      · simp only [registerLoop, hres, if_false]
        rw [ih (i + 1) _ hf2]
        simp only [regCount, List.map_cons, List.sum_cons, List.countP_append,
          zeroWait_waits, hf1]
        have hone : List.countP (fun info => info.Waiter == rid)
            [(⟨rid, (i : Int)⟩ : WaitInfo)] = 1 := by simp
        rw [hone]
        push_cast
        ring

/-- Claim C5: the wait-record reference count invariant. The record is
built with RefCount 1; the registration pass adds one per registration it
appends; a signaler visiting a registration decrements by one and reclaims
the record exactly when its decrement reaches zero (given the system
invariant that a still-waiting record also carries the waiter reference);
and the waiter finalize decrements by one and reclaims exactly when it
reaches zero. -/
theorem C5_refcount_invariant :
    (∀ count waitAll, (wfmoInitRecord count waitAll).RefCount = 1) ∧
    (∀ rid waitAll events i w, regCount rid events = 0 →
      (registerLoop rid waitAll events i w).record.RefCount
        = w.RefCount + (regCount rid (registerLoop rid waitAll events i w).events : Int)) ∧
    (∀ h info w, findRecord h info.Waiter = some w →
      (w.StillWaiting = true → 2 ≤ w.RefCount) →
      ((Action.freeRec info.Waiter ∈ (visitRegistration h info).trace) ↔ w.RefCount - 1 = 0) ∧
      (w.RefCount - 1 ≠ 0 → ∃ w2, findRecord (visitRegistration h info).heap info.Waiter
          = some w2 ∧ w2.RefCount = w.RefCount - 1)) ∧
    (∀ rid w h,
      ((Action.freeRec rid ∈ (wfmoFinalize rid w h).2.2) ↔ w.RefCount - 1 = 0) ∧
      (w.RefCount - 1 ≠ 0 → ∃ w2, findRecord (wfmoFinalize rid w h).1 rid = some w2 ∧
        w2.RefCount = w.RefCount - 1)) := by
  refine ⟨fun count waitAll => rfl, registerLoop_refcount, ?_, ?_⟩
  · intro h info w hw hinv
    constructor
    · by_cases hsw : w.StillWaiting = false
      · by_cases hz : w.RefCount - 1 = 0
        · simp [visitRegistration, hw, hsw, hz]
        · simp [visitRegistration, hw, hsw, hz]
      · have hsw2 : w.StillWaiting = true := by simpa using hsw
        have h2 := hinv hsw2
        have hz : ¬(w.RefCount - 1 = 0) := by omega
        simp [visitRegistration, hw, hsw2, hz]
    · intro hne
      by_cases hsw : w.StillWaiting = false
      · refine ⟨{ w with RefCount := w.RefCount - 1 }, ?_, rfl⟩
        simp [visitRegistration, hw, hsw, hne, findRecord_setRecord_self]
      · have hsw2 : w.StillWaiting = true := by simpa using hsw
        refine ⟨liveUpdate { w with RefCount := w.RefCount - 1 } info, ?_, ?_⟩
        · simp [visitRegistration, hw, hsw2, findRecord_setRecord_self]
        · rw [liveUpdate_refcount]
  · intro rid w h
    constructor
    · by_cases hz : w.RefCount - 1 = 0
      · simp [wfmoFinalize, hz]
      · simp [wfmoFinalize, hz]
    · intro hne
      refine ⟨{ w with StillWaiting := false, RefCount := w.RefCount - 1 }, ?_, rfl⟩
      simp [wfmoFinalize, hne, findRecord_setRecord_self]

/-- Witness for C5 at concrete records: a fresh wait-all record, a
one-event registration pass, a departed record reclaimed by the visiting
signaler, and a finalize that keeps a record with one outstanding event
reference. -/
theorem C5_witness :
    (wfmoInitRecord 3 true).RefCount = 1 ∧
    (registerLoop 9 false [⟨true, false, []⟩] 0 (wfmoInitRecord 1 false)).record.RefCount
      = (wfmoInitRecord 1 false).RefCount
        + (regCount 9 (registerLoop 9 false [⟨true, false, []⟩] 0
            (wfmoInitRecord 1 false)).events : Int) ∧
    ((Action.freeRec 4 ∈ (visitRegistration [(4, ⟨-1, false, 1, false⟩)] ⟨4, 0⟩).trace) ↔
      (⟨-1, false, 1, false⟩ : Wfmo).RefCount - 1 = 0) ∧
    ((Action.freeRec 6 ∈ (wfmoFinalize 6 ⟨0, true, 2, true⟩ []).2.2) ↔
      (⟨0, true, 2, true⟩ : Wfmo).RefCount - 1 = 0) := by
  refine ⟨C5_refcount_invariant.1 3 true,
    C5_refcount_invariant.2.1 9 false [⟨true, false, []⟩] 0 _ (by decide),
    (C5_refcount_invariant.2.2.1 [(4, ⟨-1, false, 1, false⟩)] ⟨4, 0⟩ ⟨-1, false, 1, false⟩
      (by decide) (by intro hc; simp at hc)).1,
    (C5_refcount_invariant.2.2.2 6 ⟨0, true, 2, true⟩ []).1⟩

end PEvents
